import Mathlib

/-!
Verification development for the visitfinland-scrape repository.

The repository has two batch jobs and one diagnostic script:
* `main.py` — a paged GraphQL fetcher that iterates offsets
  `0, limit, 2*limit, …` below a hard bound of 20000, stops on the first
  empty page, and writes the concatenated product lists to a JSON file;
* `ingest_products.py` — a loader that normalizes each product record
  (name selection by language preference, address/point extraction) and
  upserts it into a PostgreSQL table keyed by `product_id`, committing in
  batches of `--commit-every` rows.

Strings are modelled as `List Char`.  Python's `str.strip` / `str.lower` /
`str.split(",")` are modelled for the ASCII character set (the data these
scripts handle); Python `float()` is modelled by `pyFloat?`, covering
finite decimal/exponent literals and the `inf`/`infinity`/`nan` spellings
(digit-group underscores, accepted by CPython between digits, do not occur
in this data and are omitted).  Database effects are modelled by explicit
state: the table is a list of stored rows, `now()` is an explicit
timestamp argument, and `die`/`SystemExit` is an `Except`-style error.
-/

namespace VF

/-- Turn a string literal into the `List Char` representation used throughout. -/
def chars (s : String) : List Char := s.toList

instance {ε α : Type} [DecidableEq ε] [DecidableEq α] : DecidableEq (Except ε α) :=
  fun a b =>
  match a, b with
  | .error x, .error y =>
    if h : x = y then .isTrue (by rw [h]) else .isFalse (fun hc => h (by injection hc))
  | .ok x, .ok y =>
    if h : x = y then .isTrue (by rw [h]) else .isFalse (fun hc => h (by injection hc))
  | .error _, .ok _ => .isFalse (fun hc => by injection hc)
  | .ok _, .error _ => .isFalse (fun hc => by injection hc)

/-- ASCII whitespace, as stripped by Python's `str.strip()` default. -/
def isPySpace (c : Char) : Bool :=
  c = ' ' ∨ c = '\t' ∨ c = '\n' ∨ c = '\r' ∨ c = '\x0b' ∨ c = '\x0c'

/-- Python `str.lstrip()`. -/
def pyLStrip (l : List Char) : List Char := l.dropWhile isPySpace

/-- Python `str.rstrip()`. -/
def pyRStrip (l : List Char) : List Char := (l.reverse.dropWhile isPySpace).reverse

/-- Python `str.strip()`. -/
def pyStrip (l : List Char) : List Char := pyRStrip (pyLStrip l)

/-- Python `str.lower()` (ASCII). -/
def pyLower (l : List Char) : List Char := l.map Char.toLower

/-- Python `str.split(sep)` for a single-character separator:
`splitOnChar ',' "a,b"` is `["a","b"]`, and the empty string yields `[""]`. -/
def splitOnChar (sep : Char) : List Char → List (List Char)
  | [] => [[]]
  | c :: rest =>
    if c = sep then [] :: splitOnChar sep rest
    else
      match splitOnChar sep rest with
      | [] => [[c]]
      | h :: t => (c :: h) :: t

/-- Value of a string of decimal digits. -/
def digitsToNat (l : List Char) : Nat :=
  l.foldl (fun a c => a * 10 + (c.toNat - 48)) 0

/-- Python float values: finite values plus the infinities and NaN
(`float()` accepts `inf`, `infinity`, `nan` case-insensitively).
A finite value is kept as the unreduced fraction `num / den` denoted by the
decimal literal, so that equality is kernel-decidable; `PyFloat.toRat`
gives its rational interpretation. -/
inductive PyFloat where
  | finite (num : Int) (den : Nat)
  | inf
  | ninf
  | nan
deriving DecidableEq, Repr

/-- Rational interpretation of a finite Python float value. -/
def PyFloat.toRat : PyFloat → Option ℚ
  | .finite n d => some ((n : ℚ) / (d : ℚ))
  | _ => none

/-- Consume an optional leading sign; returns (isNegative, rest). -/
def parseSign : List Char → Bool × List Char
  | '+' :: r => (false, r)
  | '-' :: r => (true, r)
  | l => (false, l)

/-- Parse the exponent tail of a float literal: either nothing (exponent 0)
or `e`/`E`, an optional sign, and a non-empty run of digits ending the string. -/
def parseExp : List Char → Option Int
  | [] => some 0
  | c :: r =>
    if c = 'e' ∨ c = 'E' then
      let sr := parseSign r
      let ds := sr.2.takeWhile Char.isDigit
      if ds ≠ [] ∧ sr.2.dropWhile Char.isDigit = [] then
        some (if sr.1 then -(digitsToNat ds : Int) else (digitsToNat ds : Int))
      else none
    else none

/-- The value of a decimal literal with integer digits `d1`,
fraction digits `d2` and decimal exponent `e`, as an unreduced fraction. -/
def decVal (d1 d2 : List Char) (e : Int) : PyFloat :=
  let m : Nat := digitsToNat d1 * 10 ^ d2.length + digitsToNat d2
  if 0 ≤ e then .finite ((m * 10 ^ e.toNat : ℕ) : Int) (10 ^ d2.length)
  else .finite (m : Int) (10 ^ d2.length * 10 ^ (-e).toNat)

/-- Parse the unsigned decimal part of a Python float literal
(`123`, `123.`, `.5`, `1.5e-3`, …). -/
def parseDecimal (l : List Char) : Option PyFloat :=
  let d1 := l.takeWhile Char.isDigit
  let r1 := l.dropWhile Char.isDigit
  match r1 with
  | '.' :: r2 =>
    let d2 := r2.takeWhile Char.isDigit
    let r3 := r2.dropWhile Char.isDigit
    if d1 = [] ∧ d2 = [] then none
    else (parseExp r3).map fun e => decVal d1 d2 e
  | _ =>
    if d1 = [] then none
    else (parseExp r1).map fun e => decVal d1 [] e

/-- Negate a Python float value (used for a leading minus sign). -/
def PyFloat.neg : PyFloat → PyFloat
  | .finite n d => .finite (-n) d
  | .inf => .ninf
  | .ninf => .inf
  | .nan => .nan

/-- Python `float(s)` applied to an already-stripped string. -/
def pyFloatCore (s : List Char) : Option PyFloat :=
  let sr := parseSign s
  let low := pyLower sr.2
  if low = chars ("inf") ∨ low = chars ("infinity") then
    some (if sr.1 then .ninf else .inf)
  else if low = chars ("nan") then some .nan
  else (parseDecimal sr.2).map fun q => if sr.1 then q.neg else q

/-- Python `float(s)` (which itself strips surrounding whitespace). -/
def pyFloat? (l : List Char) : Option PyFloat := pyFloatCore (pyStrip l)

/-!
## Data model

Product records per the repository's data model: string-or-absent fields,
with explicit constructors for the places where `ingest_products.py`
guards against a value of the wrong shape (`isinstance` checks).
-/

/-- One element of `productInformations`: the code skips entries that are
not dicts; an entry carries optional `language` and `name` strings. -/
structure ProdInfo where
  language : Option (List Char)
  name : Option (List Char)
deriving DecidableEq, Repr

inductive InfoItem where
  | notDict
  | info (pi : ProdInfo)
deriving DecidableEq, Repr

/-- The `productInformations` field after `or []`: either a truthy value
that is not a list (the code answers `("", None)`), or a list of items. -/
inductive InfosField where
  | notList
  | items (l : List InfoItem)
deriving DecidableEq, Repr

/-- The `company` field: absent/None, a non-dict value, or a dict with an
optional `businessName`. -/
inductive CompanyField where
  | absent
  | notDict
  | dict (businessName : Option (List Char))
deriving DecidableEq, Repr

/-- The `location` value inside a postal address: `None`/absent, a
non-string value, or a string. -/
inductive LocV where
  | null
  | notStr
  | str (s : List Char)
deriving DecidableEq, Repr

/-- A postal-address dict with the fields the loader reads. -/
structure Address where
  postalCode : Option (List Char)
  streetName : Option (List Char)
  city : Option (List Char)
  location : LocV
deriving DecidableEq, Repr

inductive AddrItem where
  | notDict
  | addr (a : Address)
deriving DecidableEq, Repr

/-- The `postalAddresses` field after `or []`: a truthy non-list value, or
a list of items. -/
inductive AddrField where
  | notList
  | addrs (l : List AddrItem)
deriving DecidableEq, Repr

/-- A product record, with the fields `ingest_products.py` reads.
`none` on an `Option` field models an absent key / JSON null (both read
back as `None` by `dict.get`).  Fields the loader passes through without
inspecting (`type`, URLs, `accessible`, `updatedAt`) are modelled as
optional opaque values. -/
structure Product where
  id : Option (List Char)
  productInformations : Option InfosField
  company : CompanyField
  postalAddresses : Option AddrField
  type : Option (List Char)
  webshopUrlPrimary : Option (List Char)
  urlPrimary : Option (List Char)
  accessible : Option Bool
  updatedAt : Option (List Char)
deriving DecidableEq, Repr

/-!
## Row normalization (`ingest_products.py`)
-/

/-- `norm_lang` inside `pick_name`: `(x or "").strip().lower()`. -/
def norm_lang (x : Option (List Char)) : List Char :=
  pyLower (pyStrip (x.getD []))

/-- Inner loop of `pick_name`'s preferred-language pass: first entry that
is a dict, has a non-empty stripped name, and whose normalized language
equals `lang`; returns the stripped name with the entry's original
(un-normalized) `language` value. -/
def findInLang (lang : List Char) : List InfoItem → Option (List Char × Option (List Char))
  | [] => none
  | .notDict :: rest => findInLang lang rest
  | .info pi :: rest =>
    let name := pyStrip (pi.name.getD [])
    if name ≠ [] ∧ norm_lang pi.language = lang then some (name, pi.language)
    else findInLang lang rest

/-- Outer loop of `pick_name`'s preferred-language pass. -/
def pickLoop (infos : List InfoItem) : List (List Char) → Option (List Char × Option (List Char))
  | [] => none
  | lang :: rest =>
    match findInLang lang infos with
    | some r => some r
    | none => pickLoop infos rest

/-- Fallback loop of `pick_name`: first entry with a non-empty stripped
name, regardless of language. -/
def findAnyName : List InfoItem → Option (List Char × Option (List Char))
  | [] => none
  | .notDict :: rest => findAnyName rest
  | .info pi :: rest =>
    let name := pyStrip (pi.name.getD [])
    if name ≠ [] then some (name, pi.language)
    else findAnyName rest

/-- The body of `pick_name` on an item list. -/
def pick_name_core (infos : List InfoItem) (prefer_langs : List (List Char)) :
    List Char × Option (List Char) :=
  match pickLoop infos prefer_langs with
  | some r => r
  | none =>
    match findAnyName infos with
    | some r => r
    | none => ([], none)

/-- `pick_name(product, prefer_langs=("fi","en"))`. -/
def pick_name (product : Product)
    (prefer_langs : List (List Char) := [chars ("fi"), chars ("en")]) :
    List Char × Option (List Char) :=
  match product.productInformations with
  | some .notList => ([], none)
  | some (.items l) => pick_name_core l prefer_langs
  | none => pick_name_core [] prefer_langs

/-- The string case of `parse_location_point`: strip, check
`startswith("(") and endswith(")")`, take `s[1:-1]`, strip it, split on
`","`, strip the parts, require exactly two, and `float()` both. -/
def parse_point_str (s : List Char) : Option (PyFloat × PyFloat) :=
  let t := pyStrip s
  if t.head? = some '(' ∧ t.getLast? = some ')' then
    let inner := pyStrip ((t.drop 1).dropLast)
    match (splitOnChar ',' inner).map pyStrip with
    | [a, b] =>
      match pyFloat? a, pyFloat? b with
      | some la, some lo => some (la, lo)
      | _, _ => none
    | _ => none
  else none

/-- `parse_location_point(loc)`: accepts a string of the shape
`(number,number)` after stripping, returning `(lat, lon)`; `None` and
non-string values yield `none`. -/
def parse_location_point (loc : LocV) : Option (PyFloat × PyFloat) :=
  match loc with
  | .null => none
  | .notStr => none
  | .str s => parse_point_str s

/-- `extract_primary_address(product)`: the first postal address when the
field holds a non-empty list whose first element is a dict; otherwise the
empty dict, modelled as `none`. -/
def extract_primary_address (product : Product) : Option Address :=
  match product.postalAddresses with
  | some (.addrs (AddrItem.addr a :: _)) => some a
  | _ => none

/-- The flat row produced by `build_row` (the dict bound to the SQL
parameters).  `raw` models `json.dumps(product)` as the record itself. -/
structure Row where
  product_id : List Char
  product_name : List Char
  product_name_language : Option (List Char)
  company_business_name : Option (List Char)
  product_type : Option (List Char)
  webshop_url_primary : Option (List Char)
  url_primary : Option (List Char)
  accessible : Option Bool
  updated_at : Option (List Char)
  postal_code : Option (List Char)
  street_name : Option (List Char)
  city : Option (List Char)
  lat : Option PyFloat
  lon : Option PyFloat
  raw : Product
deriving DecidableEq, Repr

/-- `build_row(product)`: normalize one record or fail (`die`) with the
message the code passes to `die`. -/
def build_row (product : Product) : Except (List Char) Row :=
  let pid := pyStrip (product.id.getD [])
  if pid = [] then .error (chars ("Encountered product without id."))
  else
    let nm := pick_name product
    if nm.1 = [] then
      .error (chars ("Product ") ++ pid ++ chars (" has no productInformations.name"))
    else
      let company := match product.company with
        | .dict bn => bn
        | _ => none
      let addr0 := extract_primary_address product
      let loc_str := match addr0 with
        | some a => a.location
        | none => LocV.null
      let latlon := parse_location_point loc_str
      .ok {
        product_id := pid
        product_name := nm.1
        product_name_language := nm.2
        company_business_name := company
        product_type := product.type
        webshop_url_primary := product.webshopUrlPrimary
        url_primary := product.urlPrimary
        accessible := product.accessible
        updated_at := product.updatedAt
        postal_code := addr0.bind Address.postalCode
        street_name := addr0.bind Address.streetName
        city := addr0.bind Address.city
        lat := latlon.map Prod.fst
        lon := latlon.map Prod.snd
        raw := product
      }

/-!
## Database model (`UPSERT_SQL`, schema of `public.products`)

The table is a list of stored rows; `now()` is an explicit timestamp.
-/

/-- A stored row of `public.products`.  `location` is the value of the
`CASE` expression in `UPSERT_SQL`: `NULL` when either coordinate is
`NULL`, else the point `(lon, lat)` (note `ST_MakePoint(lon, lat)`). -/
structure StoredRow where
  product_id : List Char
  product_name : List Char
  product_name_language : Option (List Char)
  company_business_name : Option (List Char)
  product_type : Option (List Char)
  webshop_url_primary : Option (List Char)
  url_primary : Option (List Char)
  accessible : Option Bool
  updated_at : Option (List Char)
  postal_code : Option (List Char)
  street_name : Option (List Char)
  city : Option (List Char)
  location : Option (PyFloat × PyFloat)
  raw : Product
  ingested_at : Nat
deriving DecidableEq, Repr

/-- The `location` column computed by `UPSERT_SQL`'s `CASE`:
`NULL` if `lat` or `lon` is `NULL`, else `ST_MakePoint(lon, lat)`. -/
def sqlLocation (r : Row) : Option (PyFloat × PyFloat) :=
  match r.lat, r.lon with
  | some la, some lo => some (lo, la)
  | _, _ => none

/-- The stored row written by `UPSERT_SQL` for parameter dict `r` with
`now() = t` (both the `INSERT` values and the `DO UPDATE SET` list assign
every derived column, and `ingested_at = now()`). -/
def mkStored (r : Row) (t : Nat) : StoredRow :=
  { product_id := r.product_id
    product_name := r.product_name
    product_name_language := r.product_name_language
    company_business_name := r.company_business_name
    product_type := r.product_type
    webshop_url_primary := r.webshop_url_primary
    url_primary := r.url_primary
    accessible := r.accessible
    updated_at := r.updated_at
    postal_code := r.postal_code
    street_name := r.street_name
    city := r.city
    location := sqlLocation r
    raw := r.raw
    ingested_at := t }

/-- `INSERT … ON CONFLICT (product_id) DO UPDATE`: replace the row with
the conflicting primary key, or append a new row. -/
def upsertDB (db : List StoredRow) (r : Row) (t : Nat) : List StoredRow :=
  if db.any (fun s => s.product_id = r.product_id) then
    db.map (fun s => if s.product_id = r.product_id then mkStored r t else s)
  else db ++ [mkStored r t]

/-!
## Loader main loop (`ingest_products.py: main`)
-/

/-- `die(msg)`: prints `ERROR: msg` on stderr and exits with the code. -/
structure DieErr where
  code : Nat
  stderr : List Char
deriving DecidableEq, Repr

def die (msg : List Char) : DieErr :=
  { code := 1, stderr := chars ("ERROR: ") ++ msg }

/-- Abort of the loader: the `SystemExit` plus what stays durable — the
transaction open at abort is rolled back on disconnect, so only rows
committed by completed batches survive. -/
structure LoadAbort where
  err : DieErr
  committed : List StoredRow
deriving DecidableEq, Repr

/-- Loader loop state: the durable table, the connection's current view
(committed work plus the open transaction), the row counter `n`, and the
number of `conn.commit()` calls made so far in the loop. -/
structure LoadState where
  committed : List StoredRow
  pending : List StoredRow
  n : Nat
  commits : Nat
deriving DecidableEq, Repr

def initLoadState : LoadState := { committed := [], pending := [], n := 0, commits := 0 }

/-- One element of the input array. -/
inductive Item where
  | notDict
  | prod (p : Product)
deriving DecidableEq, Repr

/-- One iteration of the loader's `for p in products` loop, with `now()`
modelled as the pre-increment row counter. -/
def loadStep (commit_every : Int) (st : LoadState) (item : Item) : Except LoadAbort LoadState :=
  match item with
  | .notDict => .ok st
  | .prod p =>
    match build_row p with
    | .error m => .error { err := die m, committed := st.committed }
    | .ok row =>
      let pending := upsertDB st.pending row st.n
      let n := st.n + 1
      if 0 < commit_every ∧ (n : Int) % commit_every = 0 then
        .ok { committed := pending, pending := pending, n := n, commits := st.commits + 1 }
      else
        .ok { st with pending := pending, n := n }

/-- The loader's whole `for` loop. -/
def loadRun (commit_every : Int) : List Item → LoadState → Except LoadAbort LoadState
  | [], st => .ok st
  | it :: rest, st =>
    match loadStep commit_every st it with
    | .error e => .error e
    | .ok st' => loadRun commit_every rest st'

/-- `main` after JSON input and connection setup: reject an empty product
array (`die` happens before any database work), run the loop, then the
final `conn.commit()`. -/
def loaderMain (commit_every : Int) (items : List Item) : Except LoadAbort LoadState :=
  if items = [] then
    .error { err := die (chars ("No products found in data.product.")), committed := [] }
  else
    match loadRun commit_every items initLoadState with
    | .error e => .error e
    | .ok st => .ok { st with committed := st.pending, commits := st.commits + 1 }

/-!
## `read_json` (`ingest_products.py`)

The surrounding world is passed explicitly: the stdin text, a file system
(`rf` returns `none` for a missing file), and the JSON parser
(`jp` returns `none` on a parse error).  Error messages that interpolate
exception text are modelled by their fixed prefix.
-/

def read_json {J : Type} (jp : List Char → Option J) (stdin : List Char)
    (rf : List Char → Option (List Char)) (path : Option (List Char))
    (use_stdin : Bool) : Except DieErr J :=
  if use_stdin then
    if pyStrip stdin = [] then .error (die (chars ("STDIN is empty.")))
    else
      match jp stdin with
      | some v => .ok v
      | none => .error (die (chars ("Invalid JSON from STDIN.")))
  else
    match path with
    | none => .error (die (chars ("Provide --file PATH or use --stdin.")))
    | some p =>
      if p = [] then .error (die (chars ("Provide --file PATH or use --stdin.")))
      else
        match rf p with
        | none => .error (die (chars ("File not found: ") ++ p))
        | some raw =>
          match jp raw with
          | some v => .ok v
          | none => .error (die (chars ("Invalid JSON in file: ") ++ p))

/-!
## Paged fetcher (`main.py`)

The remote endpoint is a function from offset to a transport result.
`offsets bound limit` is Python's `range(0, bound, limit)`.
-/

def offsets (bound limit : Nat) : List Nat :=
  (List.range ((bound + limit - 1) / limit)).map (· * limit)

/-- The fetch loop over a list of offsets, accumulating products:
on a transport error the run aborts (no file is written); an empty page
breaks out of the loop.  Returns the offsets actually requested and the
accumulated products (the JSON file written on success). -/
def fetchPages {E α : Type} (page : Nat → Except E (List α)) :
    List Nat → List α → Except E (List Nat × List α)
  | [], acc => .ok ([], acc)
  | i :: rest, acc =>
    match page i with
    | .error e => .error e
    | .ok l =>
      if l.isEmpty then .ok ([i], acc)
      else
        match fetchPages page rest (acc ++ l) with
        | .error e => .error e
        | .ok r => .ok (i :: r.1, r.2)

/-- `main()` of the fetcher: offsets `0, limit, 2*limit, …` below 20000. -/
def fetchMain {E α : Type} (page : Nat → Except E (List α)) (limit : Nat) :
    Except E (List Nat × List α) :=
  fetchPages page (offsets 20000 limit) []

/-!
## Specification-side pattern for point parsing (claim C2)
-/

/-- Written from the spec's words: a location string matches the exact
textual pattern `(number,number)` — after removing optional surrounding
whitespace it is a parenthesized pair of exactly two comma-separated
number fields (each field a Python float literal, which itself tolerates
surrounding whitespace), the first field being latitude, the second
longitude. -/
def SpecPointPattern (s : List Char) (la lo : PyFloat) : Prop :=
  ∃ a b, pyStrip s = '(' :: (a ++ ',' :: (b ++ [')'])) ∧
    ',' ∉ a ∧ ',' ∉ b ∧ pyFloat? a = some la ∧ pyFloat? b = some lo

/-!
## Specification-side name selection (claims C3, C9)
-/

/-- Written from the spec's words: within one language, an entry is
selected when it is a localized entry whose non-empty name is found and
whose language matches (after normalization). -/
def specMatchLang (lang : List Char) (it : InfoItem) :
    Option (List Char × Option (List Char)) :=
  match it with
  | .notDict => none
  | .info pi =>
    let n := pyStrip (pi.name.getD [])
    if n ≠ [] ∧ norm_lang pi.language = lang then some (n, pi.language) else none

/-- Written from the spec's words: any localized entry with a non-empty
name, regardless of language. -/
def specAnyName (it : InfoItem) : Option (List Char × Option (List Char)) :=
  match it with
  | .notDict => none
  | .info pi =>
    let n := pyStrip (pi.name.getD [])
    if n ≠ [] then some (n, pi.language) else none

/-- Written from the spec's words: scan preferred languages in order and
take the first non-empty name within each; fall back to the first
non-empty name in any language; fail (empty name) when none exists. -/
def pick_name_spec (prefer : List (List Char)) (infos : List InfoItem) :
    List Char × Option (List Char) :=
  match prefer.findSome? (fun lang => infos.findSome? (specMatchLang lang)) with
  | some r => r
  | none =>
    match infos.findSome? specAnyName with
    | some r => r
    | none => ([], none)

/-- Two item lists agree up to the normalized form of their languages:
same shape, same names, and pointwise equal `norm_lang` of the language. -/
def itemLangEquiv (x y : InfoItem) : Prop :=
  match x, y with
  | .notDict, .notDict => True
  | .info pi, .info pj =>
    pi.name = pj.name ∧ norm_lang pi.language = norm_lang pj.language
  | _, _ => False

/-- Is an element of the input array a dict (a product object)? -/
def isDictItem : Item → Bool
  | .prod _ => true
  | .notDict => false

/-- Number of loop commits after `n` upserted rows. -/
def expectedCommits (N : Int) (n : Nat) : Nat :=
  if 0 < N then n / N.toNat else 0

/-!
## Concrete example records (used in claim theorems and witnesses)
-/

/-- A product with English and Finnish names (spec example). -/
def exProductEnFi : Product :=
  { id := some (chars ("p1"))
    productInformations := some (.items
      [.info ⟨some (chars ("en")), some (chars ("A"))⟩,
       .info ⟨some (chars ("fi")), some (chars ("B"))⟩])
    company := .absent
    postalAddresses := none
    type := none
    webshopUrlPrimary := none
    urlPrimary := none
    accessible := none
    updatedAt := none }

/-- A product with only a Swedish name (spec fallback example). -/
def exProductSv : Product :=
  { id := some (chars ("p2"))
    productInformations := some (.items [.info ⟨some (chars ("sv")), some (chars ("C"))⟩])
    company := .absent
    postalAddresses := none
    type := none
    webshopUrlPrimary := none
    urlPrimary := none
    accessible := none
    updatedAt := none }

/-- A product with an id but no usable name. -/
def exProductNoName : Product :=
  { id := some (chars ("p3"))
    productInformations := none
    company := .absent
    postalAddresses := none
    type := none
    webshopUrlPrimary := none
    urlPrimary := none
    accessible := none
    updatedAt := none }

/-- A product with no id at all. -/
def exProductNoId : Product :=
  { id := none
    productInformations := some (.items [.info ⟨some (chars ("fi")), some (chars ("N"))⟩])
    company := .absent
    postalAddresses := none
    type := none
    webshopUrlPrimary := none
    urlPrimary := none
    accessible := none
    updatedAt := none }

/-- A fully populated product with a parseable location. -/
def exProductGeo : Product :=
  { id := some (chars ("p4"))
    productInformations := some (.items [.info ⟨some (chars ("fi")), some (chars ("N"))⟩])
    company := .dict (some (chars ("Oy")))
    postalAddresses := some (.addrs
      [.addr ⟨some (chars ("00100")), some (chars ("Katu 1")), some (chars ("Helsinki")),
              .str (chars ("(60.17,24.94)"))⟩])
    type := some (chars ("ACCOMMODATION"))
    webshopUrlPrimary := none
    urlPrimary := none
    accessible := some true
    updatedAt := some (chars ("2026-01-01"))
  }

/-- The row `build_row` produces for `exProductGeo`. -/
def exRowGeo : Row :=
  { product_id := chars ("p4")
    product_name := chars ("N")
    product_name_language := some (chars ("fi"))
    company_business_name := some (chars ("Oy"))
    product_type := some (chars ("ACCOMMODATION"))
    webshop_url_primary := none
    url_primary := none
    accessible := some true
    updated_at := some (chars ("2026-01-01"))
    postal_code := some (chars ("00100"))
    street_name := some (chars ("Katu 1"))
    city := some (chars ("Helsinki"))
    lat := some (.finite 6017 100)
    lon := some (.finite 2494 100)
    raw := exProductGeo }

/-!
## Sanity examples
-/

example : pyFloat? (chars ("60.17")) = some (.finite 6017 100) := by decide
example : pyFloat? (chars (" -1.5e2 ")) = some (.finite (-1500) 10) := by decide
example : pyFloat? (chars ("abc")) = none := by decide
example : pyFloat? (chars ("")) = none := by decide
example : pyFloat? (chars ("Inf")) = some .inf := by decide

example : offsets 20000 200 = (List.range 100).map (· * 200) := by decide
example : (offsets 20000 200).length = 100 := by decide

example : build_row exProductGeo = .ok exRowGeo := by decide

/-!
## Lemmas about the string primitives
-/

lemma dropWhile_forall_nil {p : Char → Bool} {l : List Char}
    (h : ∀ c ∈ l, p c = true) : l.dropWhile p = [] := by
  induction l with
  | nil => rfl
  | cons c rest ih =>
    simp only [List.dropWhile_cons]
    rw [h c (by simp)]
    simp only [if_true]
    exact ih fun d hd => h d (by simp [hd])

lemma dropWhile_head?_false {p : Char → Bool} {l : List Char} {c : Char}
    (h : (l.dropWhile p).head? = some c) : p c = false := by
  induction l with
  | nil => simp at h
  | cons a rest ih =>
    rw [List.dropWhile_cons] at h
    by_cases hpa : p a = true
    · rw [if_pos hpa] at h; exact ih h
    · rw [if_neg hpa] at h
      simp at h
      exact h ▸ Bool.eq_false_iff.mpr hpa

lemma dropWhile_idem {p : Char → Bool} {l : List Char} :
    (l.dropWhile p).dropWhile p = l.dropWhile p := by
  cases h : l.dropWhile p with
  | nil => rfl
  | cons c rest =>
    have hc : p c = false := dropWhile_head?_false (by rw [h]; rfl)
    rw [List.dropWhile_cons, hc]
    simp

lemma pyLStrip_idem {l : List Char} : pyLStrip (pyLStrip l) = pyLStrip l :=
  dropWhile_idem

lemma pyRStrip_idem {l : List Char} : pyRStrip (pyRStrip l) = pyRStrip l := by
  unfold pyRStrip
  rw [List.reverse_reverse, dropWhile_idem]

/-- Left-strip decomposition: the removed prefix is all whitespace. -/
lemma pyLStrip_decomp (l : List Char) :
    ∃ u, l = u ++ pyLStrip l ∧ ∀ c ∈ u, isPySpace c = true := by
  refine ⟨l.takeWhile isPySpace, ?_, ?_⟩
  · rw [pyLStrip, List.takeWhile_append_dropWhile]
  · exact fun c hc => List.mem_takeWhile_imp hc

/-- Right-strip decomposition: the removed suffix is all whitespace. -/
lemma pyRStrip_decomp (l : List Char) :
    ∃ v, l = pyRStrip l ++ v ∧ ∀ c ∈ v, isPySpace c = true := by
  refine ⟨(l.reverse.takeWhile isPySpace).reverse, ?_, ?_⟩
  · unfold pyRStrip
    rw [← List.reverse_append, List.takeWhile_append_dropWhile, List.reverse_reverse]
  · intro c hc
    rw [List.mem_reverse] at hc
    exact List.mem_takeWhile_imp hc

lemma pyLStrip_append_ws {u l : List Char} (h : ∀ c ∈ u, isPySpace c = true) :
    pyLStrip (u ++ l) = pyLStrip l := by
  unfold pyLStrip
  rw [List.dropWhile_append, dropWhile_forall_nil h]
  simp

lemma pyRStrip_append_ws {l v : List Char} (h : ∀ c ∈ v, isPySpace c = true) :
    pyRStrip (l ++ v) = pyRStrip l := by
  unfold pyRStrip
  rw [List.reverse_append, List.dropWhile_append,
      dropWhile_forall_nil (fun c hc => h c (List.mem_reverse.mp hc))]
  simp

lemma pyStrip_append_ws_left {u l : List Char} (h : ∀ c ∈ u, isPySpace c = true) :
    pyStrip (u ++ l) = pyStrip l := by
  unfold pyStrip
  rw [pyLStrip_append_ws h]

lemma pyStrip_append_ws_right {l v : List Char} (h : ∀ c ∈ v, isPySpace c = true) :
    pyStrip (l ++ v) = pyStrip l := by
  unfold pyStrip pyLStrip
  rw [List.dropWhile_append]
  by_cases h0 : (l.dropWhile isPySpace).isEmpty
  · rw [if_pos h0, dropWhile_forall_nil h]
    have : l.dropWhile isPySpace = [] := by
      cases hl : l.dropWhile isPySpace <;> simp [hl] at h0 ⊢
    rw [this]
  · rw [if_neg h0]
    exact pyRStrip_append_ws h

lemma pyLStrip_pyRStrip_of_lstripped {l : List Char} :
    pyLStrip (pyRStrip (pyLStrip l)) = pyRStrip (pyLStrip l) := by
  cases h : pyRStrip (pyLStrip l) with
  | nil => rfl
  | cons c r =>
    obtain ⟨v, hv, -⟩ := pyRStrip_decomp (pyLStrip l)
    have hhead : (pyLStrip l).head? = some c := by
      rw [hv, h]; rfl
    have hc : isPySpace c = false := dropWhile_head?_false hhead
    rw [pyLStrip, List.dropWhile_cons, hc]
    simp

lemma pyStrip_idem {l : List Char} : pyStrip (pyStrip l) = pyStrip l := by
  show pyRStrip (pyLStrip (pyRStrip (pyLStrip l))) = pyRStrip (pyLStrip l)
  rw [pyLStrip_pyRStrip_of_lstripped, pyRStrip_idem]

lemma pyStrip_pyLStrip {l : List Char} : pyStrip (pyLStrip l) = pyStrip l := by
  show pyRStrip (pyLStrip (pyLStrip l)) = pyStrip l
  rw [pyLStrip_idem]; rfl

lemma pyStrip_pyRStrip {l : List Char} : pyStrip (pyRStrip l) = pyStrip l := by
  obtain ⟨v, hv, hws⟩ := pyRStrip_decomp l
  conv_rhs => rw [hv]
  rw [pyStrip_append_ws_right hws]

lemma pyFloat?_pyStrip {l : List Char} : pyFloat? (pyStrip l) = pyFloat? l := by
  unfold pyFloat?
  rw [pyStrip_idem]

lemma comma_not_ws : isPySpace ',' = false := by rfl

/-- Stripping distributes through a comma: the comma itself is not
whitespace, so only the outer ends are affected. -/
lemma pyStrip_comma (a b : List Char) :
    pyStrip (a ++ ',' :: b) = pyLStrip a ++ ',' :: pyRStrip b := by
  have h1 : pyLStrip (a ++ ',' :: b) = pyLStrip a ++ ',' :: b := by
    unfold pyLStrip
    rw [List.dropWhile_append]
    by_cases h0 : (a.dropWhile isPySpace).isEmpty = true
    · have ha : a.dropWhile isPySpace = [] := by
        rwa [List.isEmpty_iff] at h0
      rw [if_pos h0, ha, List.dropWhile_cons, comma_not_ws]
      simp
    · rw [if_neg h0]
  have hrb : pyRStrip b = (b.reverse.dropWhile isPySpace).reverse := rfl
  show pyRStrip (pyLStrip (a ++ ',' :: b)) = pyLStrip a ++ ',' :: pyRStrip b
  rw [h1]
  unfold pyRStrip
  rw [List.reverse_append, List.reverse_cons, List.append_assoc,
      List.dropWhile_append]
  by_cases h0 : (b.reverse.dropWhile isPySpace).isEmpty
  · rw [if_pos h0]
    have hb : b.reverse.dropWhile isPySpace = [] := by
      cases hl : b.reverse.dropWhile isPySpace <;> simp [hl] at h0 ⊢
    have hstep : ([','] ++ (pyLStrip a).reverse).dropWhile isPySpace
        = [','] ++ (pyLStrip a).reverse := by
      rw [List.singleton_append, List.dropWhile_cons, comma_not_ws]
      simp
    rw [hstep, List.reverse_append, List.reverse_reverse, hb]
    rfl
  · rw [if_neg h0]
    rw [List.reverse_append, List.reverse_append, List.reverse_reverse]
    simp

lemma ws_ne_comma {c : Char} (h : isPySpace c = true) : c ≠ ',' := by
  intro hc
  subst hc
  rw [comma_not_ws] at h
  exact Bool.false_ne_true h

/-!
## Lemmas about `splitOnChar`
-/

lemma splitOnChar_ne_nil {sep : Char} {l : List Char} : splitOnChar sep l ≠ [] := by
  cases l with
  | nil => simp [splitOnChar]
  | cons c rest =>
    rw [splitOnChar]
    by_cases h : c = sep
    · simp [h]
    · rw [if_neg h]
      cases splitOnChar sep rest <;> simp

lemma splitOnChar_no_sep {sep : Char} {l : List Char} (h : sep ∉ l) :
    splitOnChar sep l = [l] := by
  induction l with
  | nil => rfl
  | cons c rest ih =>
    have hc : c ≠ sep := fun hc => h (by simp [hc])
    rw [splitOnChar, if_neg hc, ih (fun hm => h (by simp [hm]))]

lemma splitOnChar_eq_single {sep : Char} {l x : List Char}
    (h : splitOnChar sep l = [x]) : l = x ∧ sep ∉ l := by
  induction l generalizing x with
  | nil =>
    simp [splitOnChar] at h
    exact ⟨h.symm, by simp⟩
  | cons c rest ih =>
    rw [splitOnChar] at h
    by_cases hc : c = sep
    · rw [if_pos hc] at h
      simp at h
      exact absurd h.2 splitOnChar_ne_nil
    · rw [if_neg hc] at h
      cases hs : splitOnChar sep rest with
      | nil => exact absurd hs splitOnChar_ne_nil
      | cons h0 t0 =>
        rw [hs] at h
        simp at h
        obtain ⟨hx, ht0⟩ := h
        obtain ⟨hrest, hmem⟩ := ih (by rw [hs, ht0])
        constructor
        · rw [← hx, hrest]
        · intro hm
          rcases List.mem_cons.mp hm with h1 | h1
          · exact hc h1.symm
          · exact hmem h1

lemma splitOnChar_append_sep {sep : Char} {x y : List Char} (hx : sep ∉ x) :
    splitOnChar sep (x ++ sep :: y) = x :: splitOnChar sep y := by
  induction x with
  | nil => simp [splitOnChar]
  | cons c rest ih =>
    have hc : c ≠ sep := fun h => hx (by simp [h])
    rw [List.cons_append, splitOnChar, if_neg hc,
        ih (fun hm => hx (by simp [hm]))]

lemma splitOnChar_eq_pair {sep : Char} {l a b : List Char}
    (h : splitOnChar sep l = [a, b]) :
    l = a ++ sep :: b ∧ sep ∉ a ∧ sep ∉ b := by
  induction l generalizing a with
  | nil => simp [splitOnChar] at h
  | cons c rest ih =>
    rw [splitOnChar] at h
    by_cases hc : c = sep
    · rw [if_pos hc] at h
      simp at h
      obtain ⟨ha, hrest⟩ := h
      obtain ⟨hr, hmem⟩ := splitOnChar_eq_single hrest
      subst hc
      exact ⟨by rw [ha, hr]; simp, by rw [ha]; simp, hr ▸ hmem⟩
    · rw [if_neg hc] at h
      cases hs : splitOnChar sep rest with
      | nil => exact absurd hs splitOnChar_ne_nil
      | cons h0 t0 =>
        rw [hs] at h
        simp at h
        obtain ⟨ha, ht0⟩ := h
        obtain ⟨hr, hmema, hmemb⟩ := ih (a := h0) (by rw [hs, ht0])
        refine ⟨?_, ?_, hmemb⟩
        · rw [← ha, hr]
          rfl
        · rw [← ha]
          intro hm
          rcases List.mem_cons.mp hm with h1 | h1
          · exact hc h1.symm
          · exact hmema h1

lemma mem_pyLStrip {c : Char} {l : List Char} (h : c ∈ pyLStrip l) : c ∈ l :=
  (List.dropWhile_sublist _).subset h

lemma mem_pyRStrip {c : Char} {l : List Char} (h : c ∈ pyRStrip l) : c ∈ l := by
  unfold pyRStrip at h
  rw [List.mem_reverse] at h
  exact List.mem_reverse.mp ((List.dropWhile_sublist _).subset h)

/-- Full strip decomposition: whitespace prefix, the stripped core, and a
whitespace suffix. -/
lemma pyStrip_decomp (l : List Char) :
    ∃ u v, l = u ++ pyStrip l ++ v ∧ (∀ c ∈ u, isPySpace c = true) ∧
      (∀ c ∈ v, isPySpace c = true) := by
  obtain ⟨u, hu, hwu⟩ := pyLStrip_decomp l
  obtain ⟨v, hv, hwv⟩ := pyRStrip_decomp (pyLStrip l)
  refine ⟨u, v, ?_, hwu, hwv⟩
  rw [List.append_assoc]
  show l = u ++ (pyRStrip (pyLStrip l) ++ v)
  rw [← hv, ← hu]

lemma pyFloat?_ws_left {u x : List Char} (h : ∀ c ∈ u, isPySpace c = true) :
    pyFloat? (u ++ x) = pyFloat? x := by
  unfold pyFloat?
  rw [pyStrip_append_ws_left h]

lemma pyFloat?_ws_right {x v : List Char} (h : ∀ c ∈ v, isPySpace c = true) :
    pyFloat? (x ++ v) = pyFloat? x := by
  unfold pyFloat?
  rw [pyStrip_append_ws_right h]

/-!
## Shape of a parenthesized string
-/

lemma paren_shape {t : List Char} (h1 : t.head? = some '(') (h2 : t.getLast? = some ')') :
    ∃ mid, t = '(' :: (mid ++ [')']) := by
  cases t with
  | nil => simp at h1
  | cons c rest =>
    simp at h1
    subst h1
    cases hr : rest.reverse with
    | nil =>
      have : rest = [] := by
        have := congrArg List.reverse hr
        rwa [List.reverse_reverse] at this
      subst this
      simp [List.getLast?] at h2
    | cons d dr =>
      have hrest : rest = dr.reverse ++ [d] := by
        have := congrArg List.reverse hr
        rwa [List.reverse_reverse, List.reverse_cons] at this
      have hd : d = ')' := by
        rw [hrest] at h2
        rw [show ('(' :: (dr.reverse ++ [d])).getLast? = some d from ?_] at h2
        · exact Option.some_inj.mp h2
        · rw [show ('(' :: (dr.reverse ++ [d])) = ('(' :: dr.reverse) ++ [d] by rfl]
          exact List.getLast?_concat _
      exact ⟨dr.reverse, by rw [hrest, hd]⟩

lemma parse_point_str_some_iff {s : List Char} {la lo : PyFloat} :
    parse_point_str s = some (la, lo) ↔ SpecPointPattern s la lo := by
  constructor
  · intro h
    simp only [parse_point_str] at h
    by_cases hif : (pyStrip s).head? = some '(' ∧ (pyStrip s).getLast? = some ')'
    case neg => rw [if_neg hif] at h; exact absurd h (by simp)
    rw [if_pos hif] at h
    obtain ⟨mid, hmid⟩ := paren_shape hif.1 hif.2
    have hinner0 : ((pyStrip s).drop 1).dropLast = mid := by
      rw [hmid]
      simp [List.dropLast_concat]
    rw [hinner0] at h
    cases hsp : splitOnChar ',' (pyStrip mid) with
    | nil => exact absurd hsp splitOnChar_ne_nil
    | cons x parts1 =>
      cases parts1 with
      | nil => rw [hsp] at h; simp at h
      | cons y parts2 =>
        cases parts2 with
        | cons z parts3 => rw [hsp] at h; simp at h
        | nil =>
          rw [hsp] at h
          simp only [List.map] at h
          obtain ⟨hcore, hnx, hny⟩ := splitOnChar_eq_pair hsp
          cases hfx : pyFloat? (pyStrip x) with
          | none => rw [hfx] at h; simp at h
          | some fa =>
            cases hfy : pyFloat? (pyStrip y) with
            | none => rw [hfx, hfy] at h; simp at h
            | some fb =>
              rw [hfx, hfy] at h
              simp at h
              obtain ⟨hfa, hfb⟩ := h
              subst hfa hfb
              obtain ⟨u, v, hm, hwu, hwv⟩ := pyStrip_decomp mid
              refine ⟨u ++ x, y ++ v, ?_, ?_, ?_, ?_, ?_⟩
              · rw [hmid]
                rw [hm, hcore]
                simp [List.append_assoc]
              · intro hc
                rcases List.mem_append.mp hc with h1 | h1
                · exact ws_ne_comma (hwu _ h1) rfl
                · exact hnx h1
              · intro hc
                rcases List.mem_append.mp hc with h1 | h1
                · exact hny h1
                · exact ws_ne_comma (hwv _ h1) rfl
              · rw [pyFloat?_ws_left hwu, ← pyFloat?_pyStrip, hfx]
              · rw [pyFloat?_ws_right hwv, ← pyFloat?_pyStrip, hfy]
  · rintro ⟨a, b, hshape, hna, hnb, hfa, hfb⟩
    have hconcat : '(' :: (a ++ ',' :: (b ++ [')']))
        = ('(' :: (a ++ ',' :: b)) ++ [')'] := by
      simp [List.append_assoc]
    simp only [parse_point_str]
    have h1 : (pyStrip s).head? = some '(' := by rw [hshape]; rfl
    have h2 : (pyStrip s).getLast? = some ')' := by
      rw [hshape, hconcat]
      exact List.getLast?_concat _
    rw [if_pos ⟨h1, h2⟩]
    have hinner0 : ((pyStrip s).drop 1).dropLast = a ++ ',' :: b := by
      rw [hshape]
      simp only [List.drop_succ_cons, List.drop_zero]
      rw [show a ++ ',' :: (b ++ [')']) = (a ++ ',' :: b) ++ [')'] by
        simp [List.append_assoc]]
      exact List.dropLast_concat
    rw [hinner0, pyStrip_comma]
    have hsplit : splitOnChar ',' (pyLStrip a ++ ',' :: pyRStrip b)
        = [pyLStrip a, pyRStrip b] := by
      rw [splitOnChar_append_sep (fun hc => hna (mem_pyLStrip hc)),
          splitOnChar_no_sep (fun hc => hnb (mem_pyRStrip hc))]
    rw [hsplit]
    simp only [List.map]
    rw [pyStrip_pyLStrip, pyStrip_pyRStrip, pyFloat?_pyStrip, pyFloat?_pyStrip,
        hfa, hfb]

lemma findInLang_eq_findSome? {lang : List Char} {infos : List InfoItem} :
    findInLang lang infos = infos.findSome? (specMatchLang lang) := by
  induction infos with
  | nil => rfl
  | cons it rest ih =>
    cases it with
    | notDict => rw [findInLang, List.findSome?_cons]; exact ih
    | info pi =>
      rw [findInLang, List.findSome?_cons]
      simp only [specMatchLang]
      split
      · rfl
      · exact ih

lemma findAnyName_eq_findSome? {infos : List InfoItem} :
    findAnyName infos = infos.findSome? specAnyName := by
  induction infos with
  | nil => rfl
  | cons it rest ih =>
    cases it with
    | notDict => rw [findAnyName, List.findSome?_cons]; exact ih
    | info pi =>
      rw [findAnyName, List.findSome?_cons]
      simp only [specAnyName]
      split
      · rfl
      · exact ih

lemma pickLoop_eq_findSome? {infos : List InfoItem} {prefer : List (List Char)} :
    pickLoop infos prefer
      = prefer.findSome? (fun lang => infos.findSome? (specMatchLang lang)) := by
  induction prefer with
  | nil => rfl
  | cons lang rest ih =>
    rw [pickLoop, List.findSome?_cons, ← findInLang_eq_findSome?]
    cases findInLang lang infos
    · exact ih
    · rfl

lemma pick_name_core_eq_spec (infos : List InfoItem) (prefer : List (List Char)) :
    pick_name_core infos prefer = pick_name_spec prefer infos := by
  unfold pick_name_core pick_name_spec
  rw [pickLoop_eq_findSome?, findAnyName_eq_findSome?]

/-- Provenance of a preferred-language hit. -/
lemma findInLang_some {lang n : List Char} {l : Option (List Char)}
    {infos : List InfoItem} (h : findInLang lang infos = some (n, l)) :
    ∃ pi, InfoItem.info pi ∈ infos ∧ pi.language = l ∧
      pyStrip (pi.name.getD []) = n ∧ n ≠ [] ∧ norm_lang pi.language = lang := by
  induction infos with
  | nil => simp [findInLang] at h
  | cons it rest ih =>
    cases it with
    | notDict =>
      rw [findInLang] at h
      obtain ⟨pi, hm, rest⟩ := ih h
      exact ⟨pi, List.mem_cons_of_mem _ hm, rest⟩
    | info pi =>
      rw [findInLang] at h
      split at h
      · simp at h
        rename_i hcond
        exact ⟨pi, List.mem_cons_self _ _, h.2, h.1, h.1 ▸ hcond.1, hcond.2⟩
      · obtain ⟨pj, hm, rest⟩ := ih h
        exact ⟨pj, List.mem_cons_of_mem _ hm, rest⟩

/-- Provenance of a fallback hit. -/
lemma findAnyName_some {n : List Char} {l : Option (List Char)}
    {infos : List InfoItem} (h : findAnyName infos = some (n, l)) :
    ∃ pi, InfoItem.info pi ∈ infos ∧ pi.language = l ∧
      pyStrip (pi.name.getD []) = n ∧ n ≠ [] := by
  induction infos with
  | nil => simp [findAnyName] at h
  | cons it rest ih =>
    cases it with
    | notDict =>
      rw [findAnyName] at h
      obtain ⟨pi, hm, rest⟩ := ih h
      exact ⟨pi, List.mem_cons_of_mem _ hm, rest⟩
    | info pi =>
      rw [findAnyName] at h
      split at h
      · simp at h
        rename_i hcond
        exact ⟨pi, List.mem_cons_self _ _, h.2, h.1, h.1 ▸ hcond⟩
      · obtain ⟨pj, hm, rest⟩ := ih h
        exact ⟨pj, List.mem_cons_of_mem _ hm, rest⟩

lemma pickLoop_some {infos : List InfoItem} {prefer : List (List Char)}
    {r : List Char × Option (List Char)} (h : pickLoop infos prefer = some r) :
    ∃ lang ∈ prefer, findInLang lang infos = some r := by
  induction prefer with
  | nil => simp [pickLoop] at h
  | cons lang rest ih =>
    rw [pickLoop] at h
    cases hf : findInLang lang infos with
    | some r0 =>
      rw [hf] at h
      simp at h
      exact ⟨lang, List.mem_cons_self _ _, by rw [hf, h]⟩
    | none =>
      rw [hf] at h
      obtain ⟨lg, hm, hfl⟩ := ih h
      exact ⟨lg, List.mem_cons_of_mem _ hm, hfl⟩

/-- Whenever the selection returns a non-empty name, both the name and the
returned language come verbatim from one localized entry of the input. -/
lemma pick_name_core_provenance {infos : List InfoItem} {prefer : List (List Char)}
    {n : List Char} {l : Option (List Char)}
    (h : pick_name_core infos prefer = (n, l)) (hn : n ≠ []) :
    ∃ pi, InfoItem.info pi ∈ infos ∧ pi.language = l ∧
      pyStrip (pi.name.getD []) = n := by
  unfold pick_name_core at h
  cases hp : pickLoop infos prefer with
  | some r =>
    rw [hp] at h
    simp at h
    obtain ⟨lang, -, hfl⟩ := pickLoop_some hp
    obtain ⟨pi, hm, hlang, hname, -⟩ := findInLang_some (hfl.trans (by rw [h]))
    exact ⟨pi, hm, hlang, hname⟩
  | none =>
    rw [hp] at h
    cases ha : findAnyName infos with
    | some r =>
      rw [ha] at h
      simp at h
      obtain ⟨pi, hm, hlang, hname, -⟩ := findAnyName_some (ha.trans (by rw [h]))
      exact ⟨pi, hm, hlang, hname⟩
    | none =>
      rw [ha] at h
      simp at h
      exact absurd h.1.symm (fun hx => hn hx.symm)

/-!
## Language-equivalence invariance (claim C9)
-/

lemma findInLang_fst_congr {lang : List Char} {xs ys : List InfoItem}
    (h : List.Forall₂ itemLangEquiv xs ys) :
    (findInLang lang xs).map Prod.fst = (findInLang lang ys).map Prod.fst := by
  induction h with
  | nil => rfl
  | @cons x y xs ys h1 h2 ih =>
    cases x with
    | notDict =>
      cases y with
      | notDict => rw [findInLang, findInLang]; exact ih
      | info pj => exact absurd h1 (by simp [itemLangEquiv])
    | info pi =>
      cases y with
      | notDict => exact absurd h1 (by simp [itemLangEquiv])
      | info pj =>
        obtain ⟨hname, hnorm⟩ := h1
        rw [findInLang, findInLang, hname, hnorm]
        split
        · rfl
        · exact ih

lemma findAnyName_fst_congr {xs ys : List InfoItem}
    (h : List.Forall₂ itemLangEquiv xs ys) :
    (findAnyName xs).map Prod.fst = (findAnyName ys).map Prod.fst := by
  induction h with
  | nil => rfl
  | @cons x y xs ys h1 h2 ih =>
    cases x with
    | notDict =>
      cases y with
      | notDict => rw [findAnyName, findAnyName]; exact ih
      | info pj => exact absurd h1 (by simp [itemLangEquiv])
    | info pi =>
      cases y with
      | notDict => exact absurd h1 (by simp [itemLangEquiv])
      | info pj =>
        obtain ⟨hname, -⟩ := h1
        rw [findAnyName, findAnyName, hname]
        split
        · rfl
        · exact ih

lemma pickLoop_fst_congr {xs ys : List InfoItem} {prefer : List (List Char)}
    (h : List.Forall₂ itemLangEquiv xs ys) :
    (pickLoop xs prefer).map Prod.fst = (pickLoop ys prefer).map Prod.fst := by
  induction prefer with
  | nil => rfl
  | cons lang rest ih =>
    rw [pickLoop, pickLoop]
    have hf := @findInLang_fst_congr lang xs ys h
    cases hx : findInLang lang xs with
    | some rx =>
      cases hy : findInLang lang ys with
      | some ry => rw [hx, hy] at hf; simpa using hf
      | none => rw [hx, hy] at hf; simp at hf
    | none =>
      cases hy : findInLang lang ys with
      | some ry => rw [hx, hy] at hf; simp at hf
      | none => simpa using ih

/-- Name selection depends on languages only through their normalized
(case-folded, stripped) form: the chosen name is unchanged when languages
are replaced by norm-equivalent variants. -/
lemma pick_name_core_fst_congr {xs ys : List InfoItem} {prefer : List (List Char)}
    (h : List.Forall₂ itemLangEquiv xs ys) :
    (pick_name_core xs prefer).1 = (pick_name_core ys prefer).1 := by
  unfold pick_name_core
  have hp := @pickLoop_fst_congr xs ys prefer h
  cases hx : pickLoop xs prefer with
  | some rx =>
    cases hy : pickLoop ys prefer with
    | some ry => rw [hx, hy] at hp; simpa using hp
    | none => rw [hx, hy] at hp; simp at hp
  | none =>
    cases hy : pickLoop ys prefer with
    | some ry => rw [hx, hy] at hp; simp at hp
    | none =>
      have ha := findAnyName_fst_congr h
      cases hax : findAnyName xs with
      | some rx =>
        cases hay : findAnyName ys with
        | some ry => rw [hax, hay] at ha; simpa using ha
        | none => rw [hax, hay] at ha; simp at ha
      | none =>
        cases hay : findAnyName ys with
        | some ry => rw [hax, hay] at ha; simp at ha
        | none => simp

/-!
## Lemmas about the loader loop
-/

lemma loadRun_append (N : Int) (xs ys : List Item) (st : LoadState) :
    loadRun N (xs ++ ys) st
      = match loadRun N xs st with
        | .error e => .error e
        | .ok st' => loadRun N ys st' := by
  induction xs generalizing st with
  | nil => simp [loadRun]
  | cons it rest ih =>
    rw [List.cons_append, loadRun, loadRun]
    cases loadStep N st it with
    | error e => rfl
    | ok st' => exact ih st'

lemma loadStep_notDict (N : Int) (st : LoadState) :
    loadStep N st Item.notDict = .ok st := rfl

/-- Skipping a non-dict element leaves the whole run unchanged. -/
lemma loadRun_skip_notDict (N : Int) (xs ys : List Item) (st : LoadState) :
    loadRun N (xs ++ Item.notDict :: ys) st = loadRun N (xs ++ ys) st := by
  rw [loadRun_append, loadRun_append]
  cases loadRun N xs st with
  | error e => rfl
  | ok st' => simp only [loadRun, loadStep_notDict]

lemma int_mod_bridge (N : Int) (hN : 0 < N) (k : Nat) :
    ((k : Int) % N = 0) ↔ k % N.toNat = 0 := by
  have hNeq : (N.toNat : Int) = N := Int.toNat_of_nonneg hN.le
  have h1 : (k : Int) % N = ((k % N.toNat : ℕ) : ℤ) := by
    conv_lhs => rw [← hNeq]
    rw [← Int.natCast_mod]
  rw [h1, Nat.cast_eq_zero]

lemma expectedCommits_succ (N : Int) (n : Nat) :
    expectedCommits N (n + 1)
      = expectedCommits N n
        + (if 0 < N ∧ ((n + 1 : Nat) : Int) % N = 0 then 1 else 0) := by
  unfold expectedCommits
  by_cases hN : 0 < N
  · simp only [if_pos hN]
    have hb := int_mod_bridge N hN (n + 1)
    rw [Nat.succ_div]
    by_cases hd : N.toNat ∣ (n + 1)
    · have hm : (n + 1) % N.toNat = 0 := Nat.dvd_iff_mod_eq_zero.mp hd
      rw [if_pos hd, if_pos ⟨hN, hb.mpr hm⟩]
    · have hm : ¬((n + 1) % N.toNat = 0) :=
        fun h => hd (Nat.dvd_iff_mod_eq_zero.mpr h)
      rw [if_neg hd, if_neg (fun hcon => hm (hb.mp hcon.2))]
  · simp [hN]

/-- Loop invariant: when every product in the remaining items normalizes
successfully, the run succeeds, counts exactly the dict elements, and the
commit counter tracks `expectedCommits` of the row counter. -/
lemma loadRun_good (N : Int) (items : List Item) :
    ∀ st : LoadState,
      (∀ p, Item.prod p ∈ items → ∃ r, build_row p = .ok r) →
      st.commits = expectedCommits N st.n →
      ∃ st', loadRun N items st = .ok st' ∧
        st'.n = st.n + items.countP isDictItem ∧
        st'.commits = expectedCommits N st'.n := by
  induction items with
  | nil =>
    intro st hg hc
    exact ⟨st, rfl, by simp, hc⟩
  | cons it rest ih =>
    intro st hg hc
    cases it with
    | notDict =>
      obtain ⟨st', h1, h2, h3⟩ := ih st (fun p hp => hg p (List.mem_cons_of_mem _ hp)) hc
      refine ⟨st', ?_, ?_, h3⟩
      · rw [loadRun, loadStep_notDict]
        exact h1
      · rw [h2]
        simp [List.countP_cons, isDictItem]
    | prod p =>
      obtain ⟨r, hr⟩ := hg p (List.mem_cons_self _ _)
      have hstep : ∃ st1 : LoadState, loadStep N st (Item.prod p) = .ok st1 ∧
          st1.n = st.n + 1 ∧ st1.commits = expectedCommits N st1.n := by
        rw [loadStep, hr]
        dsimp only
        by_cases hcm : 0 < N ∧ ((st.n + 1 : Nat) : Int) % N = 0
        · rw [if_pos hcm]
          refine ⟨_, rfl, rfl, ?_⟩
          show st.commits + 1 = expectedCommits N (st.n + 1)
          rw [expectedCommits_succ, if_pos hcm, hc]
        · rw [if_neg hcm]
          refine ⟨_, rfl, rfl, ?_⟩
          show st.commits = expectedCommits N (st.n + 1)
          rw [expectedCommits_succ, if_neg hcm, hc]
          simp
      obtain ⟨st1, hs1, hn1, hc1⟩ := hstep
      obtain ⟨st', h1, h2, h3⟩ :=
        ih st1 (fun q hq => hg q (List.mem_cons_of_mem _ hq)) hc1
      refine ⟨st', ?_, ?_, h3⟩
      · rw [loadRun, hs1]
        exact h1
      · rw [h2, hn1]
        simp [List.countP_cons, isDictItem]
        omega

/-!
## Lemmas about the upsert
-/

lemma filter_no_key {db : List StoredRow} {k : List Char}
    (h : ∀ s ∈ db, s.product_id ≠ k) :
    db.filter (fun s => s.product_id = k) = [] := by
  rw [List.filter_eq_nil_iff]
  intro s hs
  simp [h s hs]

lemma filter_map_replace {db : List StoredRow} {r : Row} {t : Nat}
    (hnd : (db.map StoredRow.product_id).Nodup)
    (hmem : db.any (fun s => s.product_id = r.product_id) = true) :
    (db.map (fun s => if s.product_id = r.product_id then mkStored r t else s)).filter
      (fun s => s.product_id = r.product_id) = [mkStored r t] := by
  induction db with
  | nil => simp at hmem
  | cons s rest ih =>
    rw [List.map_cons, List.nodup_cons] at hnd
    by_cases hs : s.product_id = r.product_id
    · rw [List.map_cons, if_pos hs, List.filter_cons]
      have hpred : decide ((mkStored r t).product_id = r.product_id) = true := by
        simp [mkStored]
      rw [if_pos hpred]
      have hrest : ∀ s' ∈ rest, s'.product_id ≠ r.product_id := by
        intro s' hs' heq
        exact hnd.1 (by
          rw [hs, ← heq]
          exact List.mem_map_of_mem StoredRow.product_id hs')
      have hmap : rest.map (fun s' =>
          if s'.product_id = r.product_id then mkStored r t else s') = rest := by
        rw [show rest = rest.map id by simp]
        rw [List.map_map]
        exact List.map_congr_left (fun a ha => by
          simp [if_neg (hrest a (by simpa using ha))])
      rw [hmap, filter_no_key (by
        intro s' hs'
        exact hrest s' hs')]
    · rw [List.map_cons, if_neg hs, List.filter_cons]
      rw [if_neg (by simpa using hs)]
      have hmem' : rest.any (fun s' => s'.product_id = r.product_id) = true := by
        rw [List.any_cons] at hmem
        rcases Bool.or_eq_true_iff.mp hmem with h1 | h1
        · exact absurd (of_decide_eq_true h1) hs
        · exact h1
      exact ih hnd.2 hmem'

/-- Under the primary-key invariant, an upsert leaves exactly one row for
the upserted key: the one just written. -/
lemma upsertDB_filter {db : List StoredRow} {r : Row} {t : Nat}
    (hnd : (db.map StoredRow.product_id).Nodup) :
    (upsertDB db r t).filter (fun s => s.product_id = r.product_id)
      = [mkStored r t] := by
  unfold upsertDB
  by_cases hany : db.any (fun s => s.product_id = r.product_id) = true
  · rw [if_pos hany]
    exact filter_map_replace hnd hany
  · rw [if_neg hany]
    rw [List.filter_append]
    have hall : ∀ s ∈ db, s.product_id ≠ r.product_id := by
      intro s hs heq
      exact hany (List.any_eq_true.mpr ⟨s, hs, by simp [heq]⟩)
    rw [filter_no_key hall]
    simp [mkStored]

/-- An upsert preserves the primary-key invariant. -/
lemma upsertDB_nodup {db : List StoredRow} {r : Row} {t : Nat}
    (hnd : (db.map StoredRow.product_id).Nodup) :
    ((upsertDB db r t).map StoredRow.product_id).Nodup := by
  unfold upsertDB
  by_cases hany : db.any (fun s => s.product_id = r.product_id) = true
  · rw [if_pos hany]
    rw [List.map_map]
    have : db.map (StoredRow.product_id ∘ fun s =>
        if s.product_id = r.product_id then mkStored r t else s)
        = db.map StoredRow.product_id := by
      apply List.map_congr_left
      intro s hs
      by_cases h : s.product_id = r.product_id
      · simp [h, mkStored]
      · simp [h]
    rw [this]
    exact hnd
  · rw [if_neg hany]
    rw [List.map_append]
    have hnin : r.product_id ∉ db.map StoredRow.product_id := by
      intro hmem
      obtain ⟨s, hs, heq⟩ := List.mem_map.mp hmem
      exact hany (List.any_eq_true.mpr ⟨s, hs, by simp [heq]⟩)
    simp [List.nodup_append, hnd, mkStored]
    intro s hs heq
    exact hnin (by rw [← heq]; exact List.mem_map_of_mem StoredRow.product_id hs)

/-!
## Lemmas about the fetch loop
-/

lemma offsets_lt {bound limit i : Nat} (hl : 0 < limit)
    (h : i ∈ offsets bound limit) : i < bound ∧ ∃ k, i = k * limit := by
  unfold offsets at h
  obtain ⟨k, hk, hik⟩ := List.mem_map.mp h
  rw [List.mem_range] at hk
  subst hik
  refine ⟨?_, k, rfl⟩
  have : k + 1 ≤ (bound + limit - 1) / limit := hk
  have h2 : (k + 1) * limit ≤ ((bound + limit - 1) / limit) * limit :=
    Nat.mul_le_mul_right _ this
  have h3 : ((bound + limit - 1) / limit) * limit ≤ bound + limit - 1 :=
    Nat.div_mul_le_self _ _
  have h4 : (k + 1) * limit ≤ bound + limit - 1 := le_trans h2 h3
  have h5 : k * limit + limit ≤ bound + limit - 1 := by
    calc k * limit + limit = (k + 1) * limit := by ring
    _ ≤ bound + limit - 1 := h4
  omega

/-- Characterization of a fetch run in which every request succeeds:
the requested offsets are a prefix of the planned offsets, the output is
the concatenation of the fetched pages in request order, every page but
the last is non-empty, and the loop stopped early only on an empty page. -/
lemma fetchPages_ok {α : Type} (pages : Nat → List α) :
    ∀ (offs : List Nat) (acc : List α),
      ∃ req out,
        fetchPages (fun i => Except.ok (ε := Unit) (pages i)) offs acc
          = .ok (req, out) ∧
        (∃ k, k ≤ offs.length ∧ req = offs.take k ∧
          (k < offs.length → req ≠ [] ∧ ∃ j, req.getLast? = some j ∧ pages j = [])) ∧
        out = acc ++ (req.map pages).flatten ∧
        (∀ m x, req[m]? = some x → m + 1 < req.length → pages x ≠ []) := by
  intro offs
  induction offs with
  | nil =>
    intro acc
    exact ⟨[], acc, rfl, ⟨0, by simp⟩, by simp, by simp⟩
  | cons i rest ih =>
    intro acc
    by_cases hi : (pages i).isEmpty
    · refine ⟨[i], acc, ?_, ⟨1, by simp, by simp, ?_⟩, ?_, ?_⟩
      · rw [fetchPages]
        simp [hi]
      · intro _
        exact ⟨by simp, i, by simp, List.isEmpty_iff.mp hi⟩
      · simp [List.isEmpty_iff.mp hi]
      · intro m x hm hlen
        simp at hlen
    · obtain ⟨req, out, h1, ⟨k, hk, hreq, hlast⟩, h2, h3⟩ := ih (acc ++ pages i)
      refine ⟨i :: req, out, ?_, ⟨k + 1, by simpa using hk, by simp [hreq], ?_⟩, ?_, ?_⟩
      · rw [fetchPages]
        simp only [hi]
        rw [if_neg (by simp)]
        rw [h1]
      · intro hklt
        have hkrest : k < rest.length := by simpa using hklt
        obtain ⟨hne, j, hj, hpj⟩ := hlast hkrest
        refine ⟨by simp, j, ?_, hpj⟩
        rw [List.getLast?_cons]
        cases hq : req with
        | nil => exact absurd hq hne
        | cons a b => rw [← hq, hj]; simp [hq]
      · rw [h2]
        simp [List.append_assoc]
      · intro m x hm hlen
        cases m with
        | zero =>
          simp at hm
          subst hm
          exact fun h => hi (by simp [h])
        | succ m' =>
          simp at hm hlen
          exact h3 m' x hm hlen

/-!
## Claim theorems
-/

/-- Claim C1: for any table state satisfying the primary-key invariant,
upserting two rows with the same non-empty `product_id` (possibly with
different field values) leaves exactly one stored row for that id, holding
all derived column values of the second row with the second ingestion
timestamp — last-write-wins, no merge — and never creates a duplicate row
(the key invariant is preserved). -/
theorem claim_C1 (db : List StoredRow) (r1 r2 : Row) (t1 t2 : Nat) (pid : List Char)
    (hnd : (db.map StoredRow.product_id).Nodup)
    (h1 : r1.product_id = pid) (h2 : r2.product_id = pid) (hpid : pid ≠ []) :
    ((upsertDB (upsertDB db r1 t1) r2 t2).filter (fun s => s.product_id = pid)
        = [mkStored r2 t2]) ∧
    (((upsertDB (upsertDB db r1 t1) r2 t2).map StoredRow.product_id).Nodup) ∧
    (mkStored r2 t2).product_id = pid ∧
    (mkStored r2 t2).ingested_at = t2 ∧
    (mkStored r2 t2).product_name = r2.product_name ∧
    (mkStored r2 t2).location = sqlLocation r2 ∧
    (mkStored r2 t2).raw = r2.raw := by
  subst h2
  exact ⟨upsertDB_filter (upsertDB_nodup hnd), upsertDB_nodup (upsertDB_nodup hnd),
    rfl, rfl, rfl, rfl, rfl⟩

/-- Witness for C1 at a concrete input: empty table, two concrete rows
sharing the id `p4`. -/
theorem claim_C1_witness :
    ((upsertDB (upsertDB [] { exRowGeo with product_name := chars ("Old") } 0) exRowGeo 1).filter
        (fun s => s.product_id = chars ("p4")) = [mkStored exRowGeo 1]) ∧
    (((upsertDB (upsertDB [] { exRowGeo with product_name := chars ("Old") } 0) exRowGeo 1).map
        StoredRow.product_id).Nodup) ∧
    (mkStored exRowGeo 1).product_id = chars ("p4") ∧
    (mkStored exRowGeo 1).ingested_at = 1 ∧
    (mkStored exRowGeo 1).product_name = exRowGeo.product_name ∧
    (mkStored exRowGeo 1).location = sqlLocation exRowGeo ∧
    (mkStored exRowGeo 1).raw = exRowGeo.raw :=
  claim_C1 [] { exRowGeo with product_name := chars ("Old") } exRowGeo 0 1
    (chars ("p4")) (by decide) (by decide) (by decide) (by decide)

/-- Claim C2: point parsing succeeds exactly on strings matching the
`(number,number)` pattern (parentheses, one comma separator, optional
surrounding whitespace), reading the first number as latitude and the
second as longitude; every deviation — missing parentheses, wrong part
count, non-numeric content, non-string or null input — yields a null
point, never an error.  Concretely, `"(60.17,24.94)"` parses to
latitude 60.17 / longitude 24.94, while `"60.17,24.94"` and
`"(abc,24.94)"` yield a null point. -/
theorem claim_C2 :
    (∀ loc la lo, parse_location_point loc = some (la, lo) ↔
      ∃ s, loc = LocV.str s ∧ SpecPointPattern s la lo) ∧
    parse_location_point (LocV.str (chars ("(60.17,24.94)")))
      = some (.finite 6017 100, .finite 2494 100) ∧
    parse_location_point (LocV.str (chars ("60.17,24.94"))) = none ∧
    parse_location_point (LocV.str (chars ("(abc,24.94)"))) = none ∧
    parse_location_point LocV.null = none ∧
    parse_location_point LocV.notStr = none := by
  refine ⟨?_, by decide, by decide, by decide, rfl, rfl⟩
  intro loc la lo
  cases loc with
  | null => simp [parse_location_point]
  | notStr => simp [parse_location_point]
  | str s =>
    constructor
    · intro h
      exact ⟨s, rfl, parse_point_str_some_iff.mp h⟩
    · rintro ⟨s', hs', hp⟩
      cases hs'
      exact parse_point_str_some_iff.mpr hp

/-- Claim C3: name selection scans the preferred languages in order, picks
the first non-empty name within each, falls back to the first non-empty
name in any language, and when no non-empty name exists at all the
record's normalization fails.  The loop implementation agrees with the
spec-side selection built from first-match combinators, and the two spec
examples hold. -/
theorem claim_C3 :
    (∀ infos prefer, pick_name_core infos prefer = pick_name_spec prefer infos) ∧
    pick_name exProductEnFi [chars ("fi"), chars ("en")]
      = (chars ("B"), some (chars ("fi"))) ∧
    pick_name exProductSv [chars ("fi"), chars ("en")]
      = (chars ("C"), some (chars ("sv"))) ∧
    (∀ p, (pick_name p).1 = [] → ∃ m, build_row p = .error m) := by
  refine ⟨pick_name_core_eq_spec, by decide, by decide, ?_⟩
  intro p hp
  unfold build_row
  by_cases hid : pyStrip (p.id.getD []) = []
  · rw [if_pos hid]
    exact ⟨_, rfl⟩
  · rw [if_neg hid]
    dsimp only
    rw [hp, if_pos rfl]
    exact ⟨_, rfl⟩

/-- Witness for C3's failure clause at a concrete input: a record whose
entries contain no usable name is rejected by `build_row`. -/
theorem claim_C3_witness : ∃ m, build_row exProductNoName = .error m :=
  claim_C3.2.2.2 exProductNoName (by decide)

/-- Claim C4: a record whose id is absent/blank, or which has no usable
name, aborts the whole run via `die`: exit code 1, a message on stderr,
and the durable table is exactly what the completed batches before the bad
record had committed — nothing more. -/
theorem claim_C4 (N : Int) (xs ys : List Item) (p : Product) (st : LoadState)
    (hxs : loadRun N xs initLoadState = .ok st)
    (hbad : pyStrip (p.id.getD []) = [] ∨ (pick_name p).1 = []) :
    ∃ m, build_row p = .error m ∧
      loaderMain N (xs ++ Item.prod p :: ys)
        = .error { err := die m, committed := st.committed } ∧
      (die m).code = 1 ∧ (die m).stderr ≠ [] := by
  have hberr : ∃ m, build_row p = .error m := by
    unfold build_row
    by_cases hid : pyStrip (p.id.getD []) = []
    · rw [if_pos hid]
      exact ⟨_, rfl⟩
    · rw [if_neg hid]
      rcases hbad with h | h
      · exact absurd h hid
      · dsimp only
        rw [h, if_pos rfl]
        exact ⟨_, rfl⟩
  obtain ⟨m, hm⟩ := hberr
  refine ⟨m, hm, ?_, rfl, by simp [die, chars]⟩
  unfold loaderMain
  rw [if_neg (by simp)]
  rw [loadRun_append, hxs]
  have hrun : loadRun N (Item.prod p :: ys) st
      = .error { err := die m, committed := st.committed } := by
    simp only [loadRun, loadStep, hm]
  simp [hrun]

/-- Witness for C4 at a concrete input: an id-less record as the only
element aborts with exit code 1 and nothing committed. -/
theorem claim_C4_witness :
    ∃ m, build_row exProductNoId = .error m ∧
      loaderMain 500 ([] ++ Item.prod exProductNoId :: [])
        = .error { err := die m, committed := initLoadState.committed } ∧
      (die m).code = 1 ∧ (die m).stderr ≠ [] :=
  claim_C4 500 [] [] exProductNoId initLoadState rfl (Or.inl (by decide))

/-- Claim C5: with every page request succeeding, the fetch loop requests
offsets `0, limit, 2*limit, …` (a prefix of the planned offsets, all
strictly below the hard bound 20000, hence termination even without an
empty page), stops as soon as a page comes back empty (every requested
page except possibly the last is non-empty, and stopping short of the
bound means the last requested page was empty), and the file written on
success is exactly the concatenation of the fetched pages in request
order. -/
theorem claim_C5 {α : Type} (pages : Nat → List α) (limit : Nat) (hl : 0 < limit) :
    ∃ req out,
      fetchMain (E := Unit) (fun i => .ok (pages i)) limit = .ok (req, out) ∧
      (∃ k, k ≤ (offsets 20000 limit).length ∧ req = (offsets 20000 limit).take k) ∧
      (∀ i ∈ req, i < 20000 ∧ ∃ k, i = k * limit) ∧
      out = (req.map pages).flatten ∧
      (∀ m x, req[m]? = some x → m + 1 < req.length → pages x ≠ []) ∧
      (req.length < (offsets 20000 limit).length →
        ∃ j, req.getLast? = some j ∧ pages j = []) := by
  obtain ⟨req, out, hrun, ⟨k, hk, hreq, hlast⟩, hout, hnonempty⟩ :=
    fetchPages_ok pages (offsets 20000 limit) []
  refine ⟨req, out, hrun, ⟨k, hk, hreq⟩, ?_, by simpa using hout, hnonempty, ?_⟩
  · intro i hi
    apply offsets_lt hl
    rw [hreq] at hi
    exact List.take_subset _ _ hi
  · intro hlen
    have hklt : k < (offsets 20000 limit).length := by
      by_contra hge
      push_neg at hge
      rw [hreq, List.take_of_length_le hge] at hlen
      exact absurd hlen (lt_irrefl _)
    obtain ⟨-, j, hj, hpj⟩ := hlast hklt
    exact ⟨j, hj, hpj⟩

/-- Witness for C5 at a concrete input: limit 200 and a remote that
always answers an empty page. -/
theorem claim_C5_witness :
    ∃ req out,
      fetchMain (E := Unit) (fun i => .ok ((fun _ => ([] : List Nat)) i)) 200
          = .ok (req, out) ∧
      (∃ k, k ≤ (offsets 20000 200).length ∧ req = (offsets 20000 200).take k) ∧
      (∀ i ∈ req, i < 20000 ∧ ∃ k, i = k * 200) ∧
      out = (req.map (fun _ => ([] : List Nat))).flatten ∧
      (∀ m x, req[m]? = some x → m + 1 < req.length →
        (fun _ => ([] : List Nat)) x ≠ []) ∧
      (req.length < (offsets 20000 200).length →
        ∃ j, req.getLast? = some j ∧ (fun _ => ([] : List Nat)) j = []) :=
  claim_C5 (fun _ => ([] : List Nat)) 200 (by decide)

/-- Claim C6: the stored geospatial point is all-or-nothing: for every
successfully normalized record either both coordinates are absent and the
`location` column is NULL, or both are present and the column holds the
point `(lon, lat)` — never exactly one coordinate. -/
theorem claim_C6 (p : Product) (row : Row) (h : build_row p = .ok row) :
    (row.lat = none ∧ row.lon = none ∧ sqlLocation row = none) ∨
    (∃ a b, row.lat = some a ∧ row.lon = some b ∧ sqlLocation row = some (b, a)) := by
  unfold build_row at h
  by_cases hid : pyStrip (p.id.getD []) = []
  · rw [if_pos hid] at h
    simp at h
  · rw [if_neg hid] at h
    by_cases hnm : (pick_name p).1 = []
    · rw [if_pos hnm] at h
      simp at h
    · rw [if_neg hnm] at h
      simp only [Except.ok.injEq] at h
      cases hpt : parse_location_point
          (match extract_primary_address p with
            | some a => a.location
            | none => LocV.null) with
      | none =>
        left
        rw [← h, hpt]
        simp [sqlLocation]
      | some pr =>
        right
        refine ⟨pr.1, pr.2, ?_⟩
        rw [← h, hpt]
        simp [sqlLocation]

/-- Witness for C6 at a concrete input: a record with a parseable
location yields both coordinates and the swapped-order stored point. -/
theorem claim_C6_witness :
    (exRowGeo.lat = none ∧ exRowGeo.lon = none ∧ sqlLocation exRowGeo = none) ∨
    (∃ a b, exRowGeo.lat = some a ∧ exRowGeo.lon = some b ∧
      sqlLocation exRowGeo = some (b, a)) :=
  claim_C6 exProductGeo exRowGeo (by decide)

/-- Claim C7: on a non-empty input whose products all normalize, the
loader successfully upserts one row per dict element and the number of
commits is `floor(n / N) + 1` when `N > 0` (a commit after every `N`
upserted rows plus the final commit) and exactly 1 when `N = 0` (or any
non-positive `N`): a single commit at the end. -/
theorem claim_C7 (N : Int) (items : List Item)
    (hne : items ≠ [])
    (hgood : ∀ p, Item.prod p ∈ items → ∃ r, build_row p = .ok r) :
    ∃ st, loaderMain N items = .ok st ∧
      st.n = items.countP isDictItem ∧
      st.commits = (if 0 < N then st.n / N.toNat else 0) + 1 := by
  obtain ⟨st0, h1, h2, h3⟩ := loadRun_good N items initLoadState hgood
    (by simp [initLoadState, expectedCommits])
  refine ⟨{ st0 with committed := st0.pending, commits := st0.commits + 1 }, ?_, ?_, ?_⟩
  · unfold loaderMain
    rw [if_neg hne, h1]
  · simpa [initLoadState] using h2
  · show st0.commits + 1 = _
    rw [h3]
    rfl

/-- Witness for C7 at a concrete input: one good product, batch size 500:
one row, one loop pass, a single final commit. -/
theorem claim_C7_witness :
    ∃ st, loaderMain 500 [Item.prod exProductGeo] = .ok st ∧
      st.n = [Item.prod exProductGeo].countP isDictItem ∧
      st.commits = (if 0 < (500 : Int) then st.n / (500 : Int).toNat else 0) + 1 :=
  claim_C7 500 [Item.prod exProductGeo] (by simp)
    (fun p hp => by
      simp at hp
      subst hp
      exact ⟨exRowGeo, by decide⟩)

/-- Claim C8: an element of the input array that is not a JSON object is
silently skipped: the step is a no-op (nothing normalized or upserted, the
counter unchanged, no error), and deleting the element from the input
leaves the whole run's result unchanged. -/
theorem claim_C8 (N : Int) (xs ys : List Item) (st : LoadState) :
    loadStep N st Item.notDict = .ok st ∧
    loadRun N (xs ++ Item.notDict :: ys) st = loadRun N (xs ++ ys) st :=
  ⟨loadStep_notDict N st, loadRun_skip_notDict N xs ys st⟩

/-- Claim C9: language matching in name selection is case-insensitive and
whitespace-insensitive (entries tagged `FI` or `" fi "` match the
preference `fi`), the returned language is the entry's original
un-normalized value, and in general the chosen name depends on languages
only through their normalized form while name and language of a hit come
verbatim from one entry. -/
theorem claim_C9 :
    (pick_name_core [.info ⟨some (chars ("FI")), some (chars ("X"))⟩]
        [chars ("fi"), chars ("en")] = (chars ("X"), some (chars ("FI")))) ∧
    (pick_name_core [.info ⟨some (chars (" fi ")), some (chars ("X"))⟩]
        [chars ("fi"), chars ("en")] = (chars ("X"), some (chars (" fi ")))) ∧
    (∀ xs ys prefer, List.Forall₂ itemLangEquiv xs ys →
      (pick_name_core xs prefer).1 = (pick_name_core ys prefer).1) ∧
    (∀ infos prefer n l, pick_name_core infos prefer = (n, l) → n ≠ [] →
      ∃ pi, InfoItem.info pi ∈ infos ∧ pi.language = l ∧
        pyStrip (pi.name.getD []) = n) := by
  refine ⟨by decide, by decide, ?_, ?_⟩
  · intro xs ys prefer h
    exact pick_name_core_fst_congr h
  · intro infos prefer n l h hn
    exact pick_name_core_provenance h hn

/-- Witness for C9's quantified clauses at concrete inputs: `FI` and `fi`
tags select the same name, and the hit's provenance is the single entry. -/
theorem claim_C9_witness :
    ((pick_name_core [.info ⟨some (chars ("FI")), some (chars ("X"))⟩]
        [chars ("fi")]).1
      = (pick_name_core [.info ⟨some (chars ("fi")), some (chars ("X"))⟩]
        [chars ("fi")]).1) ∧
    (∃ pi, InfoItem.info pi ∈ [InfoItem.info ⟨some (chars ("FI")), some (chars ("X"))⟩] ∧
      pi.language = some (chars ("FI")) ∧ pyStrip (pi.name.getD []) = chars ("X")) :=
  ⟨claim_C9.2.2.1 _ _ [chars ("fi")]
      (List.Forall₂.cons ⟨rfl, by decide⟩ List.Forall₂.nil),
    claim_C9.2.2.2 [.info ⟨some (chars ("FI")), some (chars ("X"))⟩]
      [chars ("fi"), chars ("en")] (chars ("X")) (some (chars ("FI")))
      (by decide) (by decide)⟩

/-- Claim C10: when `--stdin` is set the input comes from standard input —
the `--file` path and the file system are ignored entirely, and a
successful read is exactly the parse of the stdin text; the file argument
is consulted only when `--stdin` is not set, in which case the stdin text
is ignored. -/
theorem claim_C10 :
    (∀ (J : Type) (jp : List Char → Option J) (stdin : List Char)
        (rf rf' : List Char → Option (List Char)) (path : Option (List Char)),
      read_json jp stdin rf path true = read_json jp stdin rf' none true) ∧
    (∀ (J : Type) (jp : List Char → Option J) (stdin : List Char)
        (rf : List Char → Option (List Char)) (path : Option (List Char)) (v : J),
      read_json jp stdin rf path true = .ok v → jp stdin = some v) ∧
    (∀ (J : Type) (jp : List Char → Option J) (stdin stdin' : List Char)
        (rf : List Char → Option (List Char)) (path : Option (List Char)),
      read_json jp stdin rf path false = read_json jp stdin' rf path false) := by
  refine ⟨fun J jp stdin rf rf' path => rfl, ?_, fun J jp stdin stdin' rf path => rfl⟩
  intro J jp stdin rf path v h
  unfold read_json at h
  rw [if_pos rfl] at h
  by_cases hs : pyStrip stdin = []
  · rw [if_pos hs] at h
    simp at h
  · rw [if_neg hs] at h
    cases hj : jp stdin with
    | some w =>
      rw [hj] at h
      simp at h
      rw [h]
    | none =>
      rw [hj] at h
      simp at h

/-- Witness for C10's middle clause at a concrete input. -/
theorem claim_C10_witness :
    (fun l => some l) (chars ("[]")) = some (chars ("[]")) :=
  claim_C10.2.1 (List Char) (fun l => some l) (chars ("[]"))
    (fun _ => none) none (chars ("[]")) rfl

end VF
